import Mathlib

/-!
Shallow embedding of the OneDrive music player's crawl/cache/progress engine
(`src/app/api/music/scan/route.ts`, `src/app/api/music/route.ts`,
`src/app/api/music/scan/stream/route.ts`, `src/lib/storage.ts`) together with
theorems checking the design specification's claims against it.

Conventions of the embedding:
* machine integers are `Nat` (no arithmetic in the sources can overflow a
  JS double in the modelled ranges);
* `Date.now()` and the storage-operation sequence are modelled by a single
  logical clock `t` that advances at every storage access;
* the remote Graph API is a pure function supplied as a parameter
  (`listing` at folder granularity for the crawl engine, `pages` at page
  granularity for the pagination clients); thrown exceptions are `Except`;
* the persisted key/value store is threaded explicitly (`Store`), and an
  external cancellation write (a concurrent request flipping the persisted
  `isScanning` flag) can be injected before any storage operation via
  `cancelAt`.
-/

namespace OMP

/-- A raw item of a Graph API listing (`data.value` entry): only the fields
the engine reads.  `folder`/`file` model the truthiness of the corresponding
facet properties. -/
structure RawItem where
  name : String
  folder : Bool
  file : Bool
  id : String
  size : Nat
  lastModifiedDateTime : Option String
  deriving DecidableEq, Repr

/-- The persisted scan checkpoint (interface `ScanState` in the source).
The optional cumulative counters `scanedMusicFile`/`scanedFolder` are
modelled as `Nat` (the source reads them as `(x || 0)`). -/
structure ScanState where
  isScanning : Bool
  currentPath : String
  scannedPaths : List String
  scanedMusicFile : Nat
  scanedFolder : Nat
  startTime : Nat
  lastUpdate : Nat
  error : Option String
  totalTopLevelFolders : Nat
  scannedTopLevelFolders : Nat
  topLevelFoldersPaths : List String
  currentTopLevelFolder : Option String
  scaned : Nat
  deriving DecidableEq, Repr

/-- The media-file entry produced for each audio file (`processedFiles`). -/
structure MediaFileEntry where
  id : String
  name : String
  size : Nat
  path : String
  title : String
  artist : String
  extension : String
  lastModified : String
  deriving DecidableEq, Repr

/-- The folder reference stored in a cache record. -/
structure FolderRef where
  id : String
  name : String
  path : String
  folder : Bool
  deriving DecidableEq, Repr

/-- The per-path cache record persisted by `storeMusicData`. -/
structure CacheRecord where
  files : List MediaFileEntry
  folders : List FolderRef
  lastUpdated : Nat
  deriving DecidableEq, Repr

/-- JS `String.prototype.split` with a single-character separator (the
source only splits on `"."` and `"/"`), at character level: splitting
yields the (possibly empty) components between separator occurrences. -/
def splitCharAux (sep : Char) : List Char → List (List Char)
  | [] => [[]]
  | c :: cs =>
    let r := splitCharAux sep cs
    if c = sep then [] :: r
    else
      match r with
      | [] => [[c]]
      | h :: t => (c :: h) :: t

/-- JS `s.split(sep)` for a one-character separator. -/
def jsSplit (sep : Char) (s : String) : List String :=
  (splitCharAux sep s.data).map String.mk

/-- JS `s.toLowerCase()` (ASCII-faithful). -/
def jsToLower (s : String) : String := String.mk (s.data.map Char.toLower)

/-- JS `s.toUpperCase()` (ASCII-faithful). -/
def jsToUpper (s : String) : String := String.mk (s.data.map Char.toUpper)

/-- JS `name.split(sep).pop()`: the last component (`split` never yields an
empty array, so `pop` is total). -/
def jsLastSplit (sep : Char) (name : String) : String :=
  (jsSplit sep name).getLast?.getD ""

/-- The fixed audio extension allowlist of the source. -/
def audioExtensions : List String :=
  ["mp3", "wav", "flac", "m4a", "aac", "ogg"]

/-- The audio-file test of the source:
`["mp3", ...].includes(item.name?.split(".").pop()?.toLowerCase())`. -/
def isAudioName (name : String) : Bool :=
  audioExtensions.contains (jsToLower (jsLastSplit '.' name))

/-- JS `name.replace(/\.[^/.]+$/, "")`: strip a final extension consisting
of a dot followed by at least one character that is neither a dot nor a
slash. -/
def stripTrailingExt (name : String) : String :=
  let comps := jsSplit '.' name
  let lastComp := comps.getLast?.getD ""
  if 2 ≤ comps.length ∧ lastComp ≠ "" ∧ ¬ lastComp.data.contains '/' then
    String.intercalate "." comps.dropLast
  else name

/-- JS `path.split("/").pop() || "Unknown"`. -/
def lastPathSegment (p : String) : String :=
  let s := (jsSplit '/' p).getLast?.getD ""
  if s = "" then "Unknown" else s

/-- The media entry built for an audio file found under `owningPath`
(`processedFiles.map` body; `nowIso` stands for `new Date().toISOString()`). -/
def toMediaEntry (nowIso owningPath : String) (f : RawItem) : MediaFileEntry :=
  { id := f.id
    name := f.name
    size := f.size
    path := owningPath
    title := stripTrailingExt f.name
    artist := lastPathSegment owningPath
    extension := jsToUpper (jsLastSplit '.' f.name)
    lastModified := f.lastModifiedDateTime.getD nowIso }

/-- The folder reference built for a subfolder of `owningPath`. -/
def toFolderRef (owningPath : String) (f : RawItem) : FolderRef :=
  { id := f.id, name := f.name, path := owningPath, folder := f.folder }

/-- JS `Array.from(new Set(xs))`: deduplicate keeping first occurrences in
insertion order. -/
def dedupFirst : List String → List String
  | [] => []
  | x :: xs => x :: dedupFirst (xs.filter (· ≠ x))
termination_by l => l.length
decreasing_by
  simp only [List.length_cons]
  exact Nat.lt_succ_of_le (List.length_filter_le _ _)

theorem mem_dedupFirst {a : String} : ∀ {l : List String}, a ∈ dedupFirst l ↔ a ∈ l := by
  intro l
  induction l using dedupFirst.induct with
  | case1 => simp [dedupFirst]
  | case2 x xs ih =>
    by_cases hax : a = x
    · simp [dedupFirst, hax]
    · simp only [dedupFirst, List.mem_cons, hax, false_or]
      rw [ih]
      simp [List.mem_filter, hax]

/-! ### The crawl engine (`scan/route.ts`) as a state-threading interpreter -/

/-- The persisted key/value store visible to the crawl engine: the scan
checkpoint file and the per-path music cache. -/
structure Store where
  scan : Option ScanState
  cache : List (String × CacheRecord)
  deriving DecidableEq, Repr

/-- Observable events of a crawl run, in program order:
`write s` is a persisted checkpoint write (`setScanState`, including the
merge writes of `updateScanState`), `cacheWrite p` a `storeMusicData` call
for path `p`, `process p` the complete processing of a dequeued folder `p`
by the inner BFS loop, and `top p` the start of an outer-loop iteration for
top-level folder `p`. -/
inductive Ev where
  | write (s : ScanState)
  | cacheWrite (p : String)
  | process (p : String)
  | top (p : String)
  deriving DecidableEq, Repr

/-- Result of running a piece of the engine: final store, final logical
clock, events in order. -/
structure RunRes where
  store : Store
  time : Nat
  evs : List Ev
  deriving DecidableEq, Repr

/-- The environment of a run: the remote listing (`fetchAllItemsWithPagination`
at folder-path granularity, `.error` modelling a thrown exception), an
optional external cancellation (a concurrent request persisting
`isScanning := false` just before the engine's storage operation number
`cancelAt`), and the constant standing for `new Date().toISOString()`. -/
structure Env where
  listing : String → Except String (List RawItem)
  cancelAt : Option Nat
  nowIso : String

/-- The external cancellation write: an `updateScanState({isScanning: false})`
issued by a concurrent request. -/
def flipScanning (s : ScanState) : ScanState := { s with isScanning := false }

/-- Apply the external cancellation write if it is scheduled now. -/
def cancelStep (env : Env) (t : Nat) (σ : Store) : Store :=
  if env.cancelAt = some t then
    { σ with scan := σ.scan.map flipScanning }
  else σ

/-- `getScanState()`: read the persisted checkpoint. -/
def getScanState (env : Env) (σ : Store) (t : Nat) : Option ScanState × Store × Nat :=
  let σ' := cancelStep env t σ
  (σ'.scan, σ', t + 1)

/-- `setScanState(s)`: atomically replace the persisted checkpoint. -/
def setScanState (env : Env) (s : ScanState) (σ : Store) (t : Nat) : Store × Nat :=
  let σ' := cancelStep env t σ
  ({ σ' with scan := some s }, t + 1)

/-- `updateScanState(updates)`: read the current checkpoint and write the
merge `{...currentState, ...updates}`; a no-op when no checkpoint exists.
Also returns the list of checkpoint states written (empty or singleton). -/
def updateScanState (env : Env) (f : ScanState → ScanState) (σ : Store) (t : Nat) :
    Store × Nat × List ScanState :=
  let (cur, σ', t') := getScanState env σ t
  match cur with
  | none => (σ', t', [])
  | some s =>
    let s' := f s
    let (σ'', t'') := setScanState env s' σ' t'
    (σ'', t'', [s'])

/-- JS `cache[path] = data`: replace the record of `path`, keeping key
order, appending a new key at the end. -/
def replaceAssoc : List (String × CacheRecord) → String → CacheRecord → List (String × CacheRecord)
  | [], p, r => [(p, r)]
  | (q, s) :: rest, p, r =>
    if q = p then (q, r) :: rest else (q, s) :: replaceAssoc rest p r

/-- `storeMusicData(path, data)`. -/
def storeMusicData (env : Env) (p : String) (r : CacheRecord) (σ : Store) (t : Nat) :
    Store × Nat :=
  let σ' := cancelStep env t σ
  ({ σ' with cache := replaceAssoc σ'.cache p r }, t + 1)

/-- `scanFolderRecursive(accessToken, folderPath, scanState)`, lines 253-327:
the inner breadth-first walk over one top-level subtree.  `snap` is the
in-memory `scanState` argument object (the loop guard reads its
`isScanning` field, which no storage write can change), `fuel` bounds the
number of loop iterations (the JS loop has no bound; every theorem is
stated for sufficient fuel or for all fuel).  A `.error` from the listing
models the thrown exception propagating out of the function. -/
def scanFolderRecursive (env : Env) (snap : ScanState) :
    Nat → List String → List String → Store → Nat → RunRes
  | 0, _, _, σ, t => ⟨σ, t, []⟩
  | fuel + 1, queue, visited, σ, t =>
    match queue with
    | [] => ⟨σ, t, []⟩
    | currentPath :: rest =>
      if ¬ snap.isScanning then ⟨σ, t, []⟩
      else if visited.contains currentPath then
        scanFolderRecursive env snap fuel rest visited σ t
      else
        let visited' := currentPath :: visited
        let (σ₁, t₁, ws₁) :=
          updateScanState env (fun s => { s with currentPath := currentPath }) σ t
        match env.listing currentPath with
        | .error _ => ⟨σ₁, t₁, ws₁.map Ev.write⟩
        | .ok allItems =>
          let folders := allItems.filter (·.folder)
          let files := allItems.filter (·.file)
          let audioFiles := files.filter (fun i => isAudioName i.name)
          let processedFiles := audioFiles.map (toMediaEntry env.nowIso currentPath)
          let record : CacheRecord :=
            { files := processedFiles
              folders := folders.map (toFolderRef currentPath)
              lastUpdated := t₁ }
          let (σ₂, t₂) := storeMusicData env currentPath record σ₁ t₁
          let subNew := (folders.filter
              (fun f => ¬ visited'.contains (currentPath ++ "/" ++ f.name))).map
              (fun f => currentPath ++ "/" ++ f.name)
          let queue' := rest ++ subNew
          let (latestOpt, σ₃, t₃) := getScanState env σ₂ t₂
          let latest := latestOpt.getD snap
          let latest' := { latest with
            scannedPaths := dedupFirst (latest.scannedPaths ++ [currentPath])
            scanedMusicFile := latest.scanedMusicFile + processedFiles.length
            scanedFolder := latest.scanedFolder + 1
            currentPath := currentPath
            lastUpdate := t₃ }
          let (σ₄, t₄) := setScanState env latest' σ₃ t₃
          let r := scanFolderRecursive env snap fuel queue' visited' σ₄ t₄
          ⟨r.store, r.time,
            ws₁.map Ev.write ++
              [Ev.cacheWrite currentPath, Ev.process currentPath, Ev.write latest'] ++ r.evs⟩

/-- The loop-exit epilogue of `scanTopLevelFolders` (lines 237-241): mark
the scan complete while preserving cumulative counters. -/
def markScanComplete (env : Env) (freshState : ScanState) (σ : Store) (t : Nat) : RunRes :=
  let (doneOpt, σ₁, t₁) := getScanState env σ t
  let doneState := doneOpt.getD freshState
  let doneState' := { doneState with isScanning := false, lastUpdate := t₁ }
  let (σ₂, t₂) := setScanState env doneState' σ₁ t₁
  ⟨σ₂, t₂, [Ev.write doneState']⟩

/-- The `for` loop of `scanTopLevelFolders` (lines 200-235), iterating over
the remaining top-level folder paths; `snapArg` is the in-memory
`scanState` argument whose `isScanning` the loop guard reads, `freshState`
the latest re-read state object (`freshState` in the source). -/
def scanTopLevelLoop (env : Env) (snapArg : ScanState) (innerFuel : Nat) :
    List String → Nat → ScanState → Store → Nat → RunRes
  | [], _, freshState, σ, t => markScanComplete env freshState σ t
  | topLevelPath :: restPaths, index, freshState, σ, t =>
    if ¬ snapArg.isScanning then markScanComplete env freshState σ t
    else
      let (preOpt, σ₁, t₁) := getScanState env σ t
      let preState := preOpt.getD freshState
      let preState' := { preState with
        currentTopLevelFolder := some topLevelPath
        currentPath := topLevelPath
        lastUpdate := t₁ }
      let (σ₂, t₂) := setScanState env preState' σ₁ t₁
      let rInner := scanFolderRecursive env freshState innerFuel [topLevelPath] [] σ₂ t₂
      let (postOpt, σ₃, t₃) := getScanState env rInner.store rInner.time
      let postState := postOpt.getD preState'
      let postState' := { postState with
        scannedTopLevelFolders := index + 1
        scaned := index + 1
        lastUpdate := t₃ }
      let (σ₄, t₄) := setScanState env postState' σ₃ t₃
      let rRest := scanTopLevelLoop env snapArg innerFuel restPaths (index + 1) postState' σ₄ t₄
      ⟨rRest.store, rRest.time,
        Ev.top topLevelPath :: Ev.write preState' ::
          (rInner.evs ++ Ev.write postState' :: rRest.evs)⟩

/-- `scanTopLevelFolders(accessToken, scanState)`, lines 195-251: reload the
latest persisted state, then iterate from its `scannedTopLevelFolders`
cursor over its `topLevelFoldersPaths`. -/
def scanTopLevelFolders (env : Env) (scanState : ScanState) (innerFuel : Nat)
    (σ : Store) (t : Nat) : RunRes :=
  let (freshOpt, σ₁, t₁) := getScanState env σ t
  let freshState := freshOpt.getD scanState
  scanTopLevelLoop env scanState innerFuel
    (freshState.topLevelFoldersPaths.drop freshState.scannedTopLevelFolders)
    freshState.scannedTopLevelFolders freshState σ₁ t₁

/-- The hard-coded root path of the crawl. -/
def mainLibraryPath : String := "Music/Music Library/Main Library"

/-- `startBackgroundScan(accessToken)`, lines 125-193: prime the root
listing, persist the root cache record, initialise a fresh checkpoint and
run the crawl; on a thrown error, merge the message into the existing
checkpoint (`updateScanState`). -/
def startBackgroundScan (env : Env) (innerFuel : Nat) (σ : Store) (t : Nat) : RunRes :=
  match env.listing mainLibraryPath with
  | .error e =>
    let (σ₁, t₁, ws) := updateScanState env (fun s => { s with error := some e }) σ t
    ⟨σ₁, t₁, ws.map Ev.write⟩
  | .ok mainChildren =>
    let mainFolders := mainChildren.filter (·.folder)
    let mainFiles := mainChildren.filter (·.file)
    let rootAudioFiles := mainFiles.filter (fun i => isAudioName i.name)
    let processedRootFiles := rootAudioFiles.map (toMediaEntry env.nowIso mainLibraryPath)
    let record : CacheRecord :=
      { files := processedRootFiles
        folders := mainFolders.map (toFolderRef mainLibraryPath)
        lastUpdated := t }
    let (σ₁, t₁) := storeMusicData env mainLibraryPath record σ t
    let topPaths := mainFolders.map (fun f => mainLibraryPath ++ "/" ++ f.name)
    let scanState : ScanState :=
      { isScanning := true
        currentPath := mainLibraryPath
        scannedPaths := []
        scanedMusicFile := 0
        scanedFolder := 0
        startTime := t₁
        lastUpdate := t₁
        error := none
        totalTopLevelFolders := topPaths.length
        scannedTopLevelFolders := 0
        topLevelFoldersPaths := topPaths
        currentTopLevelFolder := topPaths.head?
        scaned := 0 }
    let (σ₂, t₂) := setScanState env scanState σ₁ t₁
    let r := scanTopLevelFolders env scanState innerFuel σ₂ t₂
    ⟨r.store, r.time, Ev.write scanState :: r.evs⟩

/-- The checkpoint states persisted during a run, in order. -/
def writesOf (evs : List Ev) : List ScanState :=
  evs.filterMap fun e => match e with | .write s => some s | _ => none

/-- The folders fully processed by the inner BFS loop, in order. -/
def processedOf (evs : List Ev) : List String :=
  evs.filterMap fun e => match e with | .process p => some p | _ => none

/-- The cache-record writes, in order. -/
def cacheWritesOf (evs : List Ev) : List String :=
  evs.filterMap fun e => match e with | .cacheWrite p => some p | _ => none

/-- The top-level folders the outer loop iterated over, in order. -/
def topsOf (evs : List Ev) : List String :=
  evs.filterMap fun e => match e with | .top p => some p | _ => none

@[simp] theorem writesOf_nil : writesOf [] = [] := rfl

@[simp] theorem writesOf_cons_write (s : ScanState) (l : List Ev) :
    writesOf (Ev.write s :: l) = s :: writesOf l := rfl

@[simp] theorem writesOf_cons_cacheWrite (p : String) (l : List Ev) :
    writesOf (Ev.cacheWrite p :: l) = writesOf l := rfl

@[simp] theorem writesOf_cons_process (p : String) (l : List Ev) :
    writesOf (Ev.process p :: l) = writesOf l := rfl

@[simp] theorem writesOf_cons_top (p : String) (l : List Ev) :
    writesOf (Ev.top p :: l) = writesOf l := rfl

@[simp] theorem writesOf_append (l₁ l₂ : List Ev) :
    writesOf (l₁ ++ l₂) = writesOf l₁ ++ writesOf l₂ :=
  List.filterMap_append l₁ l₂ _

@[simp] theorem writesOf_map_write (ss : List ScanState) :
    writesOf (ss.map Ev.write) = ss := by
  induction ss with
  | nil => rfl
  | cons s ss ih => simp [writesOf] at ih ⊢; exact ih

@[simp] theorem topsOf_nil : topsOf [] = [] := rfl

@[simp] theorem topsOf_cons_write (s : ScanState) (l : List Ev) :
    topsOf (Ev.write s :: l) = topsOf l := rfl

@[simp] theorem topsOf_cons_cacheWrite (p : String) (l : List Ev) :
    topsOf (Ev.cacheWrite p :: l) = topsOf l := rfl

@[simp] theorem topsOf_cons_process (p : String) (l : List Ev) :
    topsOf (Ev.process p :: l) = topsOf l := rfl

@[simp] theorem topsOf_cons_top (p : String) (l : List Ev) :
    topsOf (Ev.top p :: l) = p :: topsOf l := rfl

@[simp] theorem topsOf_append (l₁ l₂ : List Ev) :
    topsOf (l₁ ++ l₂) = topsOf l₁ ++ topsOf l₂ :=
  List.filterMap_append l₁ l₂ _

@[simp] theorem topsOf_map_write (ss : List ScanState) :
    topsOf (ss.map Ev.write) = [] := by
  induction ss with
  | nil => rfl
  | cons s ss ih => simp only [List.map_cons, topsOf_cons_write]; exact ih

@[simp] theorem processedOf_nil : processedOf [] = [] := rfl

@[simp] theorem processedOf_cons_write (s : ScanState) (l : List Ev) :
    processedOf (Ev.write s :: l) = processedOf l := rfl

@[simp] theorem processedOf_cons_cacheWrite (p : String) (l : List Ev) :
    processedOf (Ev.cacheWrite p :: l) = processedOf l := rfl

@[simp] theorem processedOf_cons_process (p : String) (l : List Ev) :
    processedOf (Ev.process p :: l) = p :: processedOf l := rfl

@[simp] theorem processedOf_cons_top (p : String) (l : List Ev) :
    processedOf (Ev.top p :: l) = processedOf l := rfl

@[simp] theorem processedOf_append (l₁ l₂ : List Ev) :
    processedOf (l₁ ++ l₂) = processedOf l₁ ++ processedOf l₂ :=
  List.filterMap_append l₁ l₂ _

@[simp] theorem processedOf_map_write (ss : List ScanState) :
    processedOf (ss.map Ev.write) = [] := by
  induction ss with
  | nil => rfl
  | cons s ss ih => simp only [List.map_cons, processedOf_cons_write]; exact ih

@[simp] theorem cacheWritesOf_nil : cacheWritesOf [] = [] := rfl

@[simp] theorem cacheWritesOf_cons_write (s : ScanState) (l : List Ev) :
    cacheWritesOf (Ev.write s :: l) = cacheWritesOf l := rfl

@[simp] theorem cacheWritesOf_cons_cacheWrite (p : String) (l : List Ev) :
    cacheWritesOf (Ev.cacheWrite p :: l) = p :: cacheWritesOf l := rfl

@[simp] theorem cacheWritesOf_cons_process (p : String) (l : List Ev) :
    cacheWritesOf (Ev.process p :: l) = cacheWritesOf l := rfl

@[simp] theorem cacheWritesOf_cons_top (p : String) (l : List Ev) :
    cacheWritesOf (Ev.top p :: l) = cacheWritesOf l := rfl

@[simp] theorem cacheWritesOf_append (l₁ l₂ : List Ev) :
    cacheWritesOf (l₁ ++ l₂) = cacheWritesOf l₁ ++ cacheWritesOf l₂ :=
  List.filterMap_append l₁ l₂ _

@[simp] theorem cacheWritesOf_map_write (ss : List ScanState) :
    cacheWritesOf (ss.map Ev.write) = [] := by
  induction ss with
  | nil => rfl
  | cons s ss ih => simp only [List.map_cons, cacheWritesOf_cons_write]; exact ih

/-! ### Monotonicity of checkpoint writes (claims C1, C2) -/

/-- The monotone-progress relation between successive persisted checkpoints:
cumulative counters never decrease, the `scannedPaths` set only grows, and
the top-level cursor never moves backwards. -/
def stepLE (a b : ScanState) : Prop :=
  a.scanedMusicFile ≤ b.scanedMusicFile ∧ a.scanedFolder ≤ b.scanedFolder ∧
  a.scannedPaths ⊆ b.scannedPaths ∧
  a.scannedTopLevelFolders ≤ b.scannedTopLevelFolders

instance (a b : ScanState) : Decidable (stepLE a b) :=
  decidable_of_iff
    (a.scanedMusicFile ≤ b.scanedMusicFile ∧ a.scanedFolder ≤ b.scanedFolder ∧
     (∀ x ∈ a.scannedPaths, x ∈ b.scannedPaths) ∧
     a.scannedTopLevelFolders ≤ b.scannedTopLevelFolders)
    (by unfold stepLE; rw [List.subset_def])

/-- Equality on the progress fields tracked by `stepLE`. -/
def coreEq (a b : ScanState) : Prop :=
  a.scanedMusicFile = b.scanedMusicFile ∧ a.scanedFolder = b.scanedFolder ∧
  a.scannedPaths = b.scannedPaths ∧
  a.scannedTopLevelFolders = b.scannedTopLevelFolders ∧
  a.topLevelFoldersPaths = b.topLevelFoldersPaths

theorem coreEq_refl (a : ScanState) : coreEq a a := ⟨rfl, rfl, rfl, rfl, rfl⟩

theorem coreEq_symm {a b : ScanState} (h : coreEq a b) : coreEq b a := by
  obtain ⟨h₁, h₂, h₃, h₄, h₅⟩ := h
  exact ⟨h₁.symm, h₂.symm, h₃.symm, h₄.symm, h₅.symm⟩

theorem coreEq_trans {a b c : ScanState} (h₁ : coreEq a b) (h₂ : coreEq b c) : coreEq a c := by
  obtain ⟨a₁, a₂, a₃, a₄, a₅⟩ := h₁
  obtain ⟨b₁, b₂, b₃, b₄, b₅⟩ := h₂
  exact ⟨a₁.trans b₁, a₂.trans b₂, a₃.trans b₃, a₄.trans b₄, a₅.trans b₅⟩

theorem stepLE_refl (a : ScanState) : stepLE a a :=
  ⟨le_refl _, le_refl _, fun _ h => h, le_refl _⟩

theorem stepLE_of_coreEq {a b : ScanState} (h : coreEq a b) : stepLE a b := by
  obtain ⟨h₁, h₂, h₃, h₄, _⟩ := h
  exact ⟨le_of_eq h₁, le_of_eq h₂, by rw [h₃]; exact fun _ hx => hx, le_of_eq h₄⟩

theorem stepLE_trans {a b c : ScanState} (h₁ : stepLE a b) (h₂ : stepLE b c) : stepLE a c :=
  ⟨le_trans h₁.1 h₂.1, le_trans h₁.2.1 h₂.2.1,
   fun _ hx => h₂.2.2.1 (h₁.2.2.1 hx), le_trans h₁.2.2.2 h₂.2.2.2⟩

theorem coreEq_flipScanning (s : ScanState) : coreEq (flipScanning s) s := by
  simp [coreEq, flipScanning]

theorem coreEq_of_choice {a b : ScanState} (h : b = a ∨ b = flipScanning a) : coreEq b a := by
  rcases h with h | h
  · subst h; exact coreEq_refl _
  · subst h; exact coreEq_flipScanning _

theorem stepLE_congr_left {a b c : ScanState} (h : coreEq a b) (hle : stepLE b c) :
    stepLE a c :=
  stepLE_trans (stepLE_of_coreEq h) hle

/-- Last element of a list, with a default for the empty list. -/
def lastD {α : Type} (d : α) (l : List α) : α := l.getLast?.getD d

@[simp] theorem lastD_nil {α : Type} (d : α) : lastD d ([] : List α) = d := rfl

theorem lastD_cons {α : Type} (d a : α) (l : List α) : lastD d (a :: l) = lastD a l := by
  cases l with
  | nil => rfl
  | cons b l =>
    unfold lastD
    rw [List.getLast?_cons_cons]
    rcases h : (b :: l).getLast? with _ | x
    · simp at h
    · rfl

theorem lastD_append {α : Type} (d : α) (l₁ l₂ : List α) :
    lastD d (l₁ ++ l₂) = lastD (lastD d l₁) l₂ := by
  induction l₁ generalizing d with
  | nil => rfl
  | cons a l ih => rw [List.cons_append, lastD_cons, lastD_cons, ih]

theorem chain_append_lastD {α : Type} {R : α → α → Prop} :
    ∀ {a : α} {l₁ l₂ : List α}, List.Chain R a l₁ → List.Chain R (lastD a l₁) l₂ →
      List.Chain R a (l₁ ++ l₂) := by
  intro a l₁
  induction l₁ generalizing a with
  | nil => intro l₂ _ h₂; simpa using h₂
  | cons b l ih =>
    intro l₂ h₁ h₂
    rw [List.cons_append]
    rcases List.chain_cons.mp h₁ with ⟨hab, hbl⟩
    exact List.chain_cons.mpr ⟨hab, ih hbl (by rwa [lastD_cons] at h₂)⟩

theorem chain_stepLE_mem {a : ScanState} {l : List ScanState}
    (h : List.Chain stepLE a l) : ∀ b ∈ l, stepLE a b := by
  induction l generalizing a with
  | nil => intro b hb; cases hb
  | cons c l ih =>
    rcases List.chain_cons.mp h with ⟨hac, hcl⟩
    intro b hb
    rcases List.mem_cons.mp hb with rfl | hb
    · exact hac
    · exact stepLE_trans hac (ih hcl b hb)

/-! Characterisations of the storage primitives under a live checkpoint. -/

theorem cancelStep_some {env : Env} {t : Nat} {σ : Store} {u : ScanState}
    (h : σ.scan = some u) :
    ∃ v, (cancelStep env t σ).scan = some v ∧ (v = u ∨ v = flipScanning u) := by
  unfold cancelStep
  split
  · exact ⟨flipScanning u, by simp [h], Or.inr rfl⟩
  · exact ⟨u, h, Or.inl rfl⟩

theorem getScanState_spec {env : Env} {σ : Store} {t : Nat} {u : ScanState}
    (h : σ.scan = some u) :
    ∃ σ' v, (v = u ∨ v = flipScanning u) ∧
      getScanState env σ t = (some v, σ', t + 1) ∧ σ'.scan = some v := by
  obtain ⟨v, hv, hd⟩ := @cancelStep_some env t σ u h
  exact ⟨cancelStep env t σ, v, hd, by simp [getScanState, hv], hv⟩

theorem setScanState_spec (env : Env) (s : ScanState) (σ : Store) (t : Nat) :
    ∃ σ', setScanState env s σ t = (σ', t + 1) ∧ σ'.scan = some s :=
  ⟨{ cancelStep env t σ with scan := some s }, rfl, rfl⟩

theorem updateScanState_spec {env : Env} {f : ScanState → ScanState} {σ : Store}
    {t : Nat} {u : ScanState} (h : σ.scan = some u) :
    ∃ σ' v, (v = u ∨ v = flipScanning u) ∧
      updateScanState env f σ t = (σ', t + 2, [f v]) ∧ σ'.scan = some (f v) := by
  obtain ⟨v, hv, hd⟩ := @cancelStep_some env t σ u h
  refine ⟨{ cancelStep env (t + 1) (cancelStep env t σ) with scan := some (f v) }, v, hd,
    ?_, rfl⟩
  unfold updateScanState
  rw [show getScanState env σ t = ((cancelStep env t σ).scan, cancelStep env t σ, t + 1)
    from rfl, hv]
  rfl

theorem storeMusicData_spec {env : Env} {σ : Store} {t : Nat} {u : ScanState}
    (p : String) (r : CacheRecord) (h : σ.scan = some u) :
    ∃ σ' v, (v = u ∨ v = flipScanning u) ∧
      storeMusicData env p r σ t = (σ', t + 1) ∧ σ'.scan = some v := by
  obtain ⟨v, hv, hd⟩ := @cancelStep_some env t σ u h
  exact ⟨{ cancelStep env t σ with cache := replaceAssoc (cancelStep env t σ).cache p r },
    v, hd, rfl, hv⟩

/-- Invariant established by any engine segment entered while the persisted
checkpoint is `u`: the checkpoint stays live, its cursor and work list are
unchanged by the inner loop, every write chains monotonically from `u`, and
the final persisted state agrees (on progress fields) with the last write. -/
def ChainOut (u : ScanState) (r : RunRes) : Prop :=
  ∃ u', r.store.scan = some u' ∧
    u'.scannedTopLevelFolders = u.scannedTopLevelFolders ∧
    u'.topLevelFoldersPaths = u.topLevelFoldersPaths ∧
    coreEq u' (lastD u (writesOf r.evs)) ∧
    topsOf r.evs = [] ∧
    List.Chain stepLE u (writesOf r.evs)

theorem chainOut_id {u : ScanState} {σ : Store} {t : Nat} (h : σ.scan = some u) :
    ChainOut u ⟨σ, t, []⟩ :=
  ⟨u, h, rfl, rfl, coreEq_refl u, rfl, List.Chain.nil⟩

theorem scanFolderRecursive_chain (env : Env) (snap : ScanState) :
    ∀ (fuel : Nat) (queue visited : List String) (σ : Store) (t : Nat) (u : ScanState),
      σ.scan = some u →
      ChainOut u (scanFolderRecursive env snap fuel queue visited σ t) := by
  intro fuel
  induction fuel with
  | zero => intro queue visited σ t u h; exact chainOut_id h
  | succ fuel ih =>
    intro queue visited σ t u h
    cases queue with
    | nil => exact chainOut_id h
    | cons currentPath rest =>
      by_cases hscan : snap.isScanning
      · by_cases hvis : visited.contains currentPath
        · simp only [scanFolderRecursive, hscan, hvis, not_true_eq_false, if_false, if_true]
          exact ih rest visited σ t u h
        · obtain ⟨σ₁, v₁, hd₁, hupd, hσ₁⟩ :=
            @updateScanState_spec env
              (fun s => { s with currentPath := currentPath }) σ t u h
          simp only [scanFolderRecursive, hscan, hvis, not_true_eq_false, if_false,
            Bool.false_eq_true, if_true, hupd]
          have hcore₁ : coreEq { v₁ with currentPath := currentPath } u := by
            rcases hd₁ with hq | hq <;> subst hq <;>
              simp [coreEq, flipScanning]
          rcases hlist : env.listing currentPath with e | allItems
          · -- the fetch threw: the subtree is abandoned after the merge write
            refine ⟨{ v₁ with currentPath := currentPath }, hσ₁, hcore₁.2.2.2.1, hcore₁.2.2.2.2,
              ?_, by simp, ?_⟩
            · rw [writesOf_map_write,
                show lastD u [{ v₁ with currentPath := currentPath }] =
                  { v₁ with currentPath := currentPath } from lastD_cons u _ []]
              exact coreEq_refl _
            · rw [writesOf_map_write]
              exact List.chain_cons.mpr ⟨stepLE_of_coreEq (coreEq_symm hcore₁), List.Chain.nil⟩
          · -- the listing succeeded: process this folder and recurse
            obtain ⟨σ₂, v₂, hd₂, hstore, hσ₂⟩ :=
              @storeMusicData_spec env σ₁ (t + 2) _ currentPath
                { files := ((allItems.filter (·.file)).filter
                      (fun i => isAudioName i.name)).map (toMediaEntry env.nowIso currentPath)
                  folders := (allItems.filter (·.folder)).map (toFolderRef currentPath)
                  lastUpdated := t + 2 } hσ₁
            obtain ⟨σ₃, v₃, hd₃, hget, hσ₃⟩ :=
              @getScanState_spec env σ₂ (t + 2 + 1) _ hσ₂
            simp only [hstore, hget, Option.getD_some]
            obtain ⟨σ₄, hset, hσ₄⟩ :=
              setScanState_spec env
                { v₃ with
                  scannedPaths := dedupFirst (v₃.scannedPaths ++ [currentPath])
                  scanedMusicFile := v₃.scanedMusicFile +
                    (((allItems.filter (·.file)).filter
                      (fun i => isAudioName i.name)).map (toMediaEntry env.nowIso currentPath)).length
                  scanedFolder := v₃.scanedFolder + 1
                  currentPath := currentPath
                  lastUpdate := t + 2 + 1 + 1 } σ₃ (t + 2 + 1 + 1)
            simp only [hset]
            obtain ⟨u', hu'scan, hu'top, hu'paths, hu'core, hu'tops, hu'chain⟩ :=
              ih (rest ++ ((allItems.filter (·.folder)).filter
                    (fun f => ¬ (currentPath :: visited).contains (currentPath ++ "/" ++ f.name))).map
                    (fun f => currentPath ++ "/" ++ f.name))
                (currentPath :: visited) σ₄ (t + 2 + 1 + 1 + 1) _ hσ₄
            have hcore₃ : coreEq v₃ { v₁ with currentPath := currentPath } :=
              coreEq_trans (coreEq_of_choice hd₃) (coreEq_of_choice hd₂)
            have hstep₂ : stepLE { v₁ with currentPath := currentPath }
                { v₃ with
                  scannedPaths := dedupFirst (v₃.scannedPaths ++ [currentPath])
                  scanedMusicFile := v₃.scanedMusicFile +
                    (((allItems.filter (·.file)).filter
                      (fun i => isAudioName i.name)).map (toMediaEntry env.nowIso currentPath)).length
                  scanedFolder := v₃.scanedFolder + 1
                  currentPath := currentPath
                  lastUpdate := t + 2 + 1 + 1 } := by
              obtain ⟨e₁, e₂, e₃, e₄, e₅⟩ := hcore₃
              refine ⟨?_, ?_, ?_, ?_⟩
              · rw [e₁]; exact Nat.le_add_right _ _
              · rw [e₂]; exact Nat.le_add_right _ 1
              · intro x hx
                rw [mem_dedupFirst]
                exact List.mem_append_left _ (by rw [e₃]; exact hx)
              · rw [e₄]
            refine ⟨u', hu'scan, ?_, ?_, ?_, ?_, ?_⟩
            · rw [hu'top]; exact (hcore₃.2.2.2.1).trans (hcore₁.2.2.2.1)
            · rw [hu'paths]; exact (hcore₃.2.2.2.2).trans (hcore₁.2.2.2.2)
            · simp only [writesOf_append, writesOf_map_write, writesOf_cons_cacheWrite,
                writesOf_cons_process, writesOf_cons_write, writesOf_nil,
                List.singleton_append, List.cons_append, List.nil_append]
              rw [lastD_cons, lastD_cons]
              exact hu'core
            · simp only [topsOf_append, topsOf_map_write, topsOf_cons_cacheWrite,
                topsOf_cons_process, topsOf_cons_write, topsOf_nil, List.nil_append,
                List.append_nil, hu'tops]
            · simp only [writesOf_append, writesOf_map_write, writesOf_cons_cacheWrite,
                writesOf_cons_process, writesOf_cons_write, writesOf_nil,
                List.singleton_append, List.cons_append, List.nil_append]
              refine List.chain_cons.mpr ⟨stepLE_of_coreEq (coreEq_symm hcore₁), ?_⟩
              exact List.chain_cons.mpr ⟨hstep₂, hu'chain⟩
      · simp only [scanFolderRecursive, hscan, not_false_eq_true, if_true]
        exact chainOut_id h

theorem chain_stepLE_congr_head {a b : ScanState} {l : List ScanState}
    (h : coreEq a b) (hc : List.Chain stepLE a l) : List.Chain stepLE b l := by
  cases l with
  | nil => exact List.Chain.nil
  | cons c l =>
    rcases List.chain_cons.mp hc with ⟨hac, hcl⟩
    exact List.chain_cons.mpr ⟨stepLE_congr_left (coreEq_symm h) hac, hcl⟩

theorem markScanComplete_chain {env : Env} {freshState : ScanState} {σ : Store} {t : Nat}
    {u : ScanState} (h : σ.scan = some u) :
    ChainOut u (markScanComplete env freshState σ t) := by
  obtain ⟨σ₁, v, hd, hget, hσ₁⟩ := @getScanState_spec env σ t u h
  obtain ⟨σ₂, hset, hσ₂⟩ :=
    setScanState_spec env { v with isScanning := false, lastUpdate := t + 1 } σ₁ (t + 1)
  unfold markScanComplete
  rw [hget]
  simp only [Option.getD_some, hset]
  have hcore : coreEq { v with isScanning := false, lastUpdate := t + 1 } u := by
    rcases hd with hq | hq <;> subst hq <;> simp [coreEq, flipScanning]
  refine ⟨{ v with isScanning := false, lastUpdate := t + 1 }, hσ₂,
    hcore.2.2.2.1, hcore.2.2.2.2, ?_, rfl, ?_⟩
  · simp only [writesOf_cons_write, writesOf_nil, lastD_cons, lastD_nil]
    exact coreEq_refl _
  · simp only [writesOf_cons_write, writesOf_nil]
    exact List.chain_cons.mpr ⟨stepLE_of_coreEq (coreEq_symm hcore), List.Chain.nil⟩

theorem scanTopLevelLoop_spec (env : Env) (snapArg : ScanState) (innerFuel : Nat) :
    ∀ (restPaths : List String) (index : Nat) (fresh : ScanState) (σ : Store) (t : Nat)
      (u : ScanState), σ.scan = some u → u.scannedTopLevelFolders = index →
      List.Chain stepLE u
        (writesOf (scanTopLevelLoop env snapArg innerFuel restPaths index fresh σ t).evs) ∧
      topsOf (scanTopLevelLoop env snapArg innerFuel restPaths index fresh σ t).evs =
        (if snapArg.isScanning then restPaths else []) := by
  intro restPaths
  induction restPaths with
  | nil =>
    intro index fresh σ t u h _
    obtain ⟨u', _, _, _, _, htops, hchain⟩ :=
      @markScanComplete_chain env fresh σ t u h
    simp only [scanTopLevelLoop]
    exact ⟨hchain, by rw [htops]; split <;> rfl⟩
  | cons topLevelPath restPaths ih =>
    intro index fresh σ t u h hidx
    by_cases hscan : snapArg.isScanning
    · simp only [scanTopLevelLoop, hscan, not_true_eq_false, if_false, Bool.false_eq_true,
        if_true]
      obtain ⟨σ₁, v₁, hd₁, hget₁, hσ₁⟩ := @getScanState_spec env σ t u h
      rw [hget₁]
      simp only [Option.getD_some]
      obtain ⟨σ₂, hset₂, hσ₂⟩ :=
        setScanState_spec env
          { v₁ with
            currentTopLevelFolder := some topLevelPath
            currentPath := topLevelPath
            lastUpdate := t + 1 } σ₁ (t + 1)
      simp only [hset₂]
      obtain ⟨u₂, hu₂scan, hu₂top, hu₂paths, hu₂core, hu₂tops, hu₂chain⟩ :=
        scanFolderRecursive_chain env fresh innerFuel [topLevelPath] [] σ₂ (t + 1 + 1) _ hσ₂
      obtain ⟨σ₃, v₃, hd₃, hget₃, hσ₃⟩ := @getScanState_spec env _
        ((scanFolderRecursive env fresh innerFuel [topLevelPath] [] σ₂ (t + 1 + 1)).time) _
        hu₂scan
      rw [hget₃]
      simp only [Option.getD_some]
      obtain ⟨σ₄, hset₄, hσ₄⟩ :=
        setScanState_spec env
          { v₃ with
            scannedTopLevelFolders := index + 1
            scaned := index + 1
            lastUpdate :=
              (scanFolderRecursive env fresh innerFuel [topLevelPath] [] σ₂ (t + 1 + 1)).time
                + 1 } σ₃
          ((scanFolderRecursive env fresh innerFuel [topLevelPath] [] σ₂ (t + 1 + 1)).time + 1)
      simp only [hset₄]
      obtain ⟨ihchain, ihtops⟩ := ih (index + 1) _ σ₄ _ _ hσ₄ rfl
      have hcorePre : coreEq
          { v₁ with
            currentTopLevelFolder := some topLevelPath
            currentPath := topLevelPath
            lastUpdate := t + 1 } u := by
        rcases hd₁ with hq | hq <;> subst hq <;> simp [coreEq, flipScanning]
      have hv₃core : coreEq v₃ (lastD
          { v₁ with
            currentTopLevelFolder := some topLevelPath
            currentPath := topLevelPath
            lastUpdate := t + 1 }
          (writesOf (scanFolderRecursive env fresh innerFuel [topLevelPath] [] σ₂
            (t + 1 + 1)).evs)) :=
        coreEq_trans (coreEq_of_choice hd₃) hu₂core
      have hv₃top : v₃.scannedTopLevelFolders = index := by
        rw [(coreEq_of_choice hd₃).2.2.2.1, hu₂top]
        exact (hcorePre.2.2.2.1).trans hidx
      constructor
      · simp only [writesOf_cons_top, writesOf_cons_write, writesOf_append]
        refine List.chain_cons.mpr ⟨stepLE_of_coreEq (coreEq_symm hcorePre), ?_⟩
        refine chain_append_lastD hu₂chain ?_
        refine List.chain_cons.mpr ⟨?_, ihchain⟩
        refine stepLE_congr_left (coreEq_symm hv₃core) ?_
        refine ⟨Nat.le_refl _, Nat.le_refl _, fun x hx => hx, ?_⟩
        rw [hv₃top]
        exact Nat.le_add_right _ 1
      · simp only [topsOf_cons_top, topsOf_cons_write, topsOf_append, hu₂tops,
          List.nil_append, topsOf_cons_write]
        rw [ihtops]
        simp [hscan]
    · simp only [scanTopLevelLoop, hscan, Bool.false_eq_true, not_false_eq_true, if_true]
      obtain ⟨u', _, _, _, _, htops, hchain⟩ :=
        @markScanComplete_chain env fresh σ t u h
      exact ⟨hchain, by rw [htops]; simp [hscan]⟩

theorem scanTopLevelFolders_spec {env : Env} {scanState : ScanState} {innerFuel : Nat}
    {σ : Store} {t : Nat} {s0 : ScanState} (h : σ.scan = some s0) :
    List.Chain stepLE s0
      (writesOf (scanTopLevelFolders env scanState innerFuel σ t).evs) ∧
    topsOf (scanTopLevelFolders env scanState innerFuel σ t).evs =
      (if scanState.isScanning then
        s0.topLevelFoldersPaths.drop s0.scannedTopLevelFolders else []) := by
  obtain ⟨σ₁, v, hd, hget, hσ₁⟩ := @getScanState_spec env σ t s0 h
  unfold scanTopLevelFolders
  rw [hget]
  simp only [Option.getD_some]
  obtain ⟨hchain, htops⟩ :=
    scanTopLevelLoop_spec env scanState innerFuel
      (v.topLevelFoldersPaths.drop v.scannedTopLevelFolders)
      v.scannedTopLevelFolders v σ₁ (t + 1) v hσ₁ rfl
  have hcore : coreEq v s0 := coreEq_of_choice hd
  refine ⟨chain_stepLE_congr_head hcore ?_, ?_⟩
  · exact hchain
  · rw [htops, hcore.2.2.2.2, hcore.2.2.2.1]

theorem scanFolderRecursive_not_scanning (env : Env) {snap : ScanState}
    (hs : snap.isScanning = false) :
    ∀ (fuel : Nat) (queue visited : List String) (σ : Store) (t : Nat),
      scanFolderRecursive env snap fuel queue visited σ t = ⟨σ, t, []⟩ := by
  intro fuel queue visited σ t
  cases fuel with
  | zero => rfl
  | succ fuel =>
    cases queue with
    | nil => rfl
    | cons p rest => simp [scanFolderRecursive, hs]

/-! ### Concrete runs used as witnesses and counterexamples -/

/-- A folder raw item. -/
def witFolder (n : String) : RawItem := ⟨n, true, false, "id-" ++ n, 0, none⟩

/-- An audio-file raw item. -/
def witFile (n : String) : RawItem := ⟨n, false, true, "id-" ++ n, 7, none⟩

/-- A store with one top-level folder `T` containing subfolder chain
`T/C1/C2` and one audio file directly under `T`. -/
def witListing : String → Except String (List RawItem) := fun p =>
  if p = "T" then .ok [witFolder "C1", witFile "a.mp3"]
  else if p = "T/C1" then .ok [witFolder "C2"]
  else .ok []

/-- A checkpoint about to crawl the single top-level folder `T`. -/
def witS0 : ScanState :=
  { isScanning := true
    currentPath := ""
    scannedPaths := []
    scanedMusicFile := 0
    scanedFolder := 0
    startTime := 0
    lastUpdate := 0
    error := none
    totalTopLevelFolders := 1
    scannedTopLevelFolders := 0
    topLevelFoldersPaths := ["T"]
    currentTopLevelFolder := none
    scaned := 0 }

/-- Environment without external cancellation. -/
def witEnv : Env := ⟨witListing, none, "iso"⟩

/-- Environment in which a concurrent request persists `isScanning := false`
at storage-operation 6 — during the inner BFS processing of the first
folder `T`, before its counter write. -/
def c3Env : Env := ⟨witListing, some 6, "iso"⟩

/-! ### Claim C1 -/

/-- C1: every checkpoint write performed by the crawl engine during a scan
(in `scanTopLevelFolders` and, through it, `scanFolderRecursive`) is
computed by re-reading the latest persisted scan state and merging into it:
in the sequence starting from the initially persisted checkpoint `s0`
followed by all persisted writes of the run, each state dominates its
predecessor — `scanedMusicFile` and `scanedFolder` never decrease, the
`scannedPaths` set only grows (and the top-level cursor never moves back),
for every environment, including one with an externally injected
cancellation write. -/
theorem c1_checkpoint_writes_monotone (env : Env) (scanState : ScanState)
    (innerFuel : Nat) (σ : Store) (t : Nat) (s0 : ScanState) (h : σ.scan = some s0) :
    List.Chain stepLE s0 (writesOf (scanTopLevelFolders env scanState innerFuel σ t).evs) :=
  (scanTopLevelFolders_spec h).1

/-- Witness for C1 at a concrete run. -/
theorem c1_checkpoint_writes_monotone_witness :
    (Store.mk (some witS0) []).scan = some witS0 ∧
    List.Chain stepLE witS0
      (writesOf (scanTopLevelFolders witEnv witS0 10 ⟨some witS0, []⟩ 0).evs) :=
  ⟨rfl, c1_checkpoint_writes_monotone witEnv witS0 10 ⟨some witS0, []⟩ 0 witS0 rfl⟩

/-! ### Claim C2 -/

/-- C2: resuming from a checkpoint with `scannedTopLevelFolders = k` out of
`totalTopLevelFolders = n`, `k < n`, and a fixed `topLevelFoldersPaths`
list processes exactly the top-level paths at indices `k` to `n-1`, in list
order; no write of the resumed run sets `scannedTopLevelFolders` below `k`
or either cumulative counter below its pre-resume value. -/
theorem c2_resume_correctness (env : Env) (innerFuel : Nat) (σ : Store) (t : Nat)
    (s0 : ScanState) (k n : Nat)
    (h : σ.scan = some s0)
    (hArg : s0.isScanning = true)
    (hk : s0.scannedTopLevelFolders = k)
    (hn : s0.totalTopLevelFolders = n)
    (hlen : s0.topLevelFoldersPaths.length = n)
    (hkn : k < n) :
    topsOf (scanTopLevelFolders env s0 innerFuel σ t).evs =
      s0.topLevelFoldersPaths.drop k ∧
    ∀ w ∈ writesOf (scanTopLevelFolders env s0 innerFuel σ t).evs,
      k ≤ w.scannedTopLevelFolders ∧
      s0.scanedMusicFile ≤ w.scanedMusicFile ∧
      s0.scanedFolder ≤ w.scanedFolder := by
  obtain ⟨hchain, htops⟩ :=
    @scanTopLevelFolders_spec env s0 innerFuel σ t s0 h
  constructor
  · rw [htops, hk]
    simp [hArg]
  · intro w hw
    have hle := chain_stepLE_mem hchain w hw
    exact ⟨hk ▸ hle.2.2.2, hle.1, hle.2.1⟩

/-- Witness for C2 at a concrete resume (k = 0 of n = 1). -/
theorem c2_resume_correctness_witness :
    ((Store.mk (some witS0) []).scan = some witS0 ∧ witS0.isScanning = true ∧
      witS0.scannedTopLevelFolders = 0 ∧ witS0.totalTopLevelFolders = 1 ∧
      witS0.topLevelFoldersPaths.length = 1 ∧ 0 < 1) ∧
    (topsOf (scanTopLevelFolders witEnv witS0 10 ⟨some witS0, []⟩ 0).evs =
        witS0.topLevelFoldersPaths.drop 0 ∧
      ∀ w ∈ writesOf (scanTopLevelFolders witEnv witS0 10 ⟨some witS0, []⟩ 0).evs,
        0 ≤ w.scannedTopLevelFolders ∧
        witS0.scanedMusicFile ≤ w.scanedMusicFile ∧
        witS0.scanedFolder ≤ w.scanedFolder) :=
  ⟨⟨rfl, rfl, rfl, rfl, rfl, by decide⟩,
    c2_resume_correctness witEnv 10 ⟨some witS0, []⟩ 0 witS0 0 1 rfl rfl rfl rfl rfl
      (by decide)⟩

/-! ### Claim C3 -/

/-- C3 counterexample: in the concrete run `c3Env` a concurrent request
persists `isScanning := false` while the inner BFS loop is processing the
first folder `T` (storage operation 6); dropping the event trace up to and
including the first persisted checkpoint write with `isScanning = false`,
the crawl still fully processes two further folders, `T/C1` and `T/C1/C2`
— so neither loop observes the cancellation within one inner-loop
iteration, contradicting the claim. -/
theorem c3_counterexample :
    processedOf
      (((scanTopLevelFolders c3Env witS0 10 ⟨some witS0, []⟩ 0).evs).dropWhile
        (fun e => match e with | .write s => s.isScanning | _ => true)) =
      ["T/C1", "T/C1/C2"] := by decide

/-- C3 amended: the loop guards test the `isScanning` field of in-memory
snapshot objects, not the persisted checkpoint.  (1) The outer
per-top-level-folder loop never observes an externally persisted
cancellation: for every environment (any `cancelAt`), it iterates over all
remaining top-level paths.  (2) Cancellation only takes effect through the
snapshot passed to a subsequently started inner walk: an inner BFS call
whose snapshot has `isScanning = false` processes nothing and writes
nothing. -/
theorem c3_amended_cancellation :
    (∀ (env : Env) (s0 : ScanState) (innerFuel : Nat) (σ : Store) (t : Nat),
      σ.scan = some s0 → s0.isScanning = true →
      topsOf (scanTopLevelFolders env s0 innerFuel σ t).evs =
        s0.topLevelFoldersPaths.drop s0.scannedTopLevelFolders) ∧
    (∀ (env : Env) (snap : ScanState) (fuel : Nat) (queue visited : List String)
      (σ : Store) (t : Nat), snap.isScanning = false →
      scanFolderRecursive env snap fuel queue visited σ t = ⟨σ, t, []⟩) := by
  constructor
  · intro env s0 innerFuel σ t h hs
    rw [(scanTopLevelFolders_spec h).2]
    simp [hs]
  · intro env snap fuel queue visited σ t hs
    exact scanFolderRecursive_not_scanning env hs fuel queue visited σ t

/-- Witness for the amended C3 at concrete inputs (note `c3Env` contains the
injected cancellation; the outer loop still visits every remaining path). -/
theorem c3_amended_cancellation_witness :
    topsOf (scanTopLevelFolders c3Env witS0 10 ⟨some witS0, []⟩ 0).evs =
      witS0.topLevelFoldersPaths.drop witS0.scannedTopLevelFolders ∧
    scanFolderRecursive c3Env (flipScanning witS0) 10 ["T"] [] ⟨some witS0, []⟩ 0 =
      ⟨⟨some witS0, []⟩, 0, []⟩ :=
  ⟨c3_amended_cancellation.1 c3Env witS0 10 ⟨some witS0, []⟩ 0 rfl rfl,
    c3_amended_cancellation.2 c3Env (flipScanning witS0) 10 ["T"] [] ⟨some witS0, []⟩ 0 rfl⟩

/-! ### Claim C4: BFS completeness over a finite folder tree -/

/-- A finite folder tree: a folder name and its subfolders (files are given
by the listing and do not affect traversal). -/
inductive FolderTree where
  | mk (name : String) (subs : List FolderTree)
  deriving Repr

/-- The folder's name. -/
def FolderTree.name : FolderTree → String
  | .mk n _ => n

/-- The folder's subfolders. -/
def FolderTree.subs : FolderTree → List FolderTree
  | .mk _ s => s

/-- Number of folders in the tree (the node and all descendants). -/
def treeSize : FolderTree → Nat
  | .mk _ subs => 1 + (subs.attach.map (fun x => treeSize x.1)).sum
termination_by t => sizeOf t
decreasing_by
  have := List.sizeOf_lt_of_mem x.2
  simp only [FolderTree.mk.sizeOf_spec]
  omega

theorem treeSize_eq (c : FolderTree) :
    treeSize c = 1 + (c.subs.map treeSize).sum := by
  cases c with
  | mk n subs =>
    rw [treeSize]
    simp [FolderTree.subs, List.attach_map_coe]

/-- Expanding a dequeued entry: one queue entry per child, carrying the
child's full path and its subfolders. -/
def expandEntry (p : String) (cs : List FolderTree) : List (String × List FolderTree) :=
  cs.map (fun c => (p ++ "/" ++ c.name, c.subs))

/-- Termination measure for the BFS enumeration. -/
def qWeight (Q : List (String × List FolderTree)) : Nat :=
  (Q.map (fun e => 1 + (e.2.map treeSize).sum)).sum

theorem qWeight_append (A B : List (String × List FolderTree)) :
    qWeight (A ++ B) = qWeight A + qWeight B := by
  simp [qWeight]

theorem qWeight_cons (e : String × List FolderTree) (Q : List (String × List FolderTree)) :
    qWeight (e :: Q) = (1 + (e.2.map treeSize).sum) + qWeight Q := by
  simp [qWeight]

theorem qWeight_expandEntry (p : String) (cs : List FolderTree) :
    qWeight (expandEntry p cs) = (cs.map treeSize).sum := by
  unfold qWeight expandEntry
  rw [List.map_map]
  induction cs with
  | nil => rfl
  | cons c cs ih =>
    simp only [List.map_cons, List.sum_cons, Function.comp] at ih ⊢
    rw [ih, ← treeSize_eq]

/-- The breadth-first enumeration of the paths of all folders reachable
from the queue, in dequeue order (the order the inner loop processes them). -/
def lvPaths : List (String × List FolderTree) → List String
  | [] => []
  | (p, cs) :: Q => p :: lvPaths (Q ++ expandEntry p cs)
termination_by Q => qWeight Q
decreasing_by
  simp only [qWeight_append, qWeight_expandEntry, qWeight_cons]
  omega

theorem fst_mem_lvPaths :
    ∀ (Q : List (String × List FolderTree)) (e : String × List FolderTree),
      e ∈ Q → e.1 ∈ lvPaths Q := by
  intro Q
  induction Q using lvPaths.induct with
  | case1 => intro e he; cases he
  | case2 p cs Q ih =>
    intro e he
    rw [lvPaths]
    rcases List.mem_cons.mp he with rfl | he
    · exact List.mem_cons_self _ _
    · exact List.mem_cons_of_mem _ (ih e (List.mem_append_left _ he))

/-- Depth-first enumeration of the full paths of the subfolders of `p`
(excluding `p` itself). -/
def pathsUnder : String → List FolderTree → List String
  | _, [] => []
  | p, c :: cs =>
    ((p ++ "/" ++ c.name) :: pathsUnder (p ++ "/" ++ c.name) c.subs) ++ pathsUnder p cs
termination_by p cs => (cs.map treeSize).sum
decreasing_by
  · have := treeSize_eq c
    simp only [List.map_cons, List.sum_cons]
    omega
  · have := treeSize_eq c
    simp only [List.map_cons, List.sum_cons]
    omega

/-- All folder paths of the subtree rooted at `p` whose children are `cs`:
the folder itself and every descendant. -/
def entryPaths (p : String) (cs : List FolderTree) : List String :=
  p :: pathsUnder p cs

/-- Depth-first path enumeration of a whole queue. -/
def entryPathsOfQueue : List (String × List FolderTree) → List String
  | [] => []
  | e :: Q => entryPaths e.1 e.2 ++ entryPathsOfQueue Q

theorem entryPathsOfQueue_append (A B : List (String × List FolderTree)) :
    entryPathsOfQueue (A ++ B) = entryPathsOfQueue A ++ entryPathsOfQueue B := by
  induction A with
  | nil => rfl
  | cons e A ih => simp [entryPathsOfQueue, ih]

theorem entryPathsOfQueue_expandEntry (p : String) (cs : List FolderTree) :
    entryPathsOfQueue (expandEntry p cs) = pathsUnder p cs := by
  induction cs generalizing p with
  | nil => simp [expandEntry, entryPathsOfQueue, pathsUnder]
  | cons c cs ih =>
    rw [pathsUnder]
    simp only [expandEntry, List.map_cons, entryPathsOfQueue, entryPaths]
    rw [show (List.map (fun c => (p ++ "/" ++ c.name, c.subs)) cs) = expandEntry p cs from rfl,
      ih p]

/-- The BFS enumeration is a permutation of the DFS enumeration: every
folder of the forest appears in both exactly the same number of times. -/
theorem lvPaths_perm :
    ∀ Q : List (String × List FolderTree), (lvPaths Q).Perm (entryPathsOfQueue Q) := by
  intro Q
  induction Q using lvPaths.induct with
  | case1 => rw [lvPaths]; rfl
  | case2 p cs Q ih =>
    rw [lvPaths]
    have h1 : entryPathsOfQueue ((p, cs) :: Q) =
        p :: (pathsUnder p cs ++ entryPathsOfQueue Q) := by
      simp [entryPathsOfQueue, entryPaths]
    rw [h1]
    refine List.Perm.cons p ?_
    refine ih.trans ?_
    rw [entryPathsOfQueue_append, entryPathsOfQueue_expandEntry]
    exact List.perm_append_comm

/-- The listing returns, at folder `p`, exactly the tree's subfolder
names, in order. -/
def childrenMatch (listing : String → Except String (List RawItem))
    (p : String) (cs : List FolderTree) : Bool :=
  match listing p with
  | .ok items => ((items.filter (·.folder)).map (·.name)) == cs.map FolderTree.name
  | .error _ => false

/-- The listing agrees with every subtree strictly below `p`. -/
def subsAgree (listing : String → Except String (List RawItem)) :
    String → List FolderTree → Bool
  | _, [] => true
  | p, c :: cs =>
    (childrenMatch listing (p ++ "/" ++ c.name) c.subs &&
      subsAgree listing (p ++ "/" ++ c.name) c.subs) &&
    subsAgree listing p cs
termination_by p cs => (cs.map treeSize).sum
decreasing_by
  · have := treeSize_eq c
    simp only [List.map_cons, List.sum_cons]
    omega
  · have := treeSize_eq c
    simp only [List.map_cons, List.sum_cons]
    omega

/-- The listing agrees with the tree: at each folder of the subtree the
listing succeeds and returns exactly the tree's subfolder names, in order. -/
def entryAgree (listing : String → Except String (List RawItem))
    (p : String) (cs : List FolderTree) : Bool :=
  childrenMatch listing p cs && subsAgree listing p cs

theorem subsAgree_mem {listing : String → Except String (List RawItem)}
    {p : String} {cs : List FolderTree} (h : subsAgree listing p cs = true) :
    ∀ c ∈ cs, entryAgree listing (p ++ "/" ++ c.name) c.subs = true := by
  induction cs with
  | nil => intro c hc; cases hc
  | cons c cs ih =>
    rw [subsAgree] at h
    simp only [Bool.and_eq_true] at h
    intro d hd
    rcases List.mem_cons.mp hd with hq | hd
    · subst hq
      unfold entryAgree
      rw [h.1.1, h.1.2]
      rfl
    · exact ih h.2 d hd

theorem entryAgree_spec {listing : String → Except String (List RawItem)}
    {p : String} {cs : List FolderTree} (h : entryAgree listing p cs = true) :
    ∃ items, listing p = .ok items ∧
      ((items.filter (·.folder)).map (·.name)) = cs.map FolderTree.name ∧
      ∀ c ∈ cs, entryAgree listing (p ++ "/" ++ c.name) c.subs = true := by
  unfold entryAgree at h
  simp only [Bool.and_eq_true] at h
  have hcm := h.1
  unfold childrenMatch at hcm
  rcases hl : listing p with e | items
  · rw [hl] at hcm; simp at hcm
  · rw [hl] at hcm
    simp only [beq_iff_eq] at hcm
    exact ⟨items, rfl, hcm, subsAgree_mem h.2⟩

theorem scanFolderRecursive_bfs (env : Env) (snap : ScanState) (hs : snap.isScanning = true) :
    ∀ (Q : List (String × List FolderTree)) (visited : List String) (σ : Store) (t : Nat)
      (fuel : Nat),
      (lvPaths Q).length ≤ fuel →
      (∀ e ∈ Q, entryAgree env.listing e.1 e.2 = true) →
      (lvPaths Q).Nodup →
      (∀ v ∈ visited, v ∉ lvPaths Q) →
      processedOf (scanFolderRecursive env snap fuel (Q.map Prod.fst) visited σ t).evs =
        lvPaths Q ∧
      cacheWritesOf (scanFolderRecursive env snap fuel (Q.map Prod.fst) visited σ t).evs =
        lvPaths Q := by
  intro Q
  induction Q using lvPaths.induct with
  | case1 =>
    intro visited σ t fuel _ _ _ _
    rw [lvPaths]
    cases fuel <;> exact ⟨rfl, rfl⟩
  | case2 p cs Q ih =>
    intro visited σ t fuel hfuel hagree hnodup hdisj
    rw [lvPaths] at hfuel hnodup ⊢
    have hdisj' : ∀ v ∈ visited, v ∉ p :: lvPaths (Q ++ expandEntry p cs) := by
      intro v hv
      have := hdisj v hv
      rwa [lvPaths] at this
    cases fuel with
    | zero => simp at hfuel
    | succ fuel =>
      have hpnotvis : p ∉ visited := fun hv => hdisj' p hv (List.mem_cons_self _ _)
      have hag : entryAgree env.listing p cs = true := hagree (p, cs) (List.mem_cons_self _ _)
      obtain ⟨items, hl, hnames, hchildren⟩ := entryAgree_spec hag
      have hvisb : visited.contains p = false := by simpa using hpnotvis
      rcases hupd : updateScanState env (fun s => { s with currentPath := p }) σ t with
        ⟨σ₁, t₁, ws₁⟩
      simp only [List.map_cons, scanFolderRecursive, hs, not_true_eq_false, if_false,
        Bool.false_eq_true, if_true, hvisb, hupd, hl]
      have hchildlv : ∀ f ∈ items.filter (fun x => x.folder),
          (p ++ "/" ++ f.name) ∈ lvPaths (Q ++ expandEntry p cs) := by
        intro f hf
        have hname : f.name ∈ List.map FolderTree.name cs := by
          rw [← hnames]; exact List.mem_map_of_mem _ hf
        obtain ⟨c, hc, hcname⟩ := List.mem_map.mp hname
        have hmem : (p ++ "/" ++ c.name, c.subs) ∈ expandEntry p cs :=
          List.mem_map_of_mem _ hc
        have h2 : (p ++ "/" ++ c.name) ∈ lvPaths (Q ++ expandEntry p cs) :=
          fst_mem_lvPaths _ _ (List.mem_append_right _ hmem)
        rw [hcname] at h2
        exact h2
      have hfilter :
          (List.filter (fun f => decide ¬(p :: visited).contains (p ++ "/" ++ f.name) = true)
            (List.filter (fun x => x.folder) items)) =
          List.filter (fun x => x.folder) items := by
        apply List.filter_eq_self.mpr
        intro f hf
        have hne : (p ++ "/" ++ f.name) ≠ p := by
          intro he
          have hx := hchildlv f hf
          rw [he] at hx
          exact (List.nodup_cons.mp hnodup).1 hx
        have hnv : (p ++ "/" ++ f.name) ∉ visited := fun hv =>
          hdisj' _ hv (List.mem_cons_of_mem _ (hchildlv f hf))
        simp [hne, hnv]
      have hmapchild :
          List.map (fun f => p ++ "/" ++ f.name) (List.filter (fun x => x.folder) items) =
          List.map Prod.fst (expandEntry p cs) := by
        have h1 : List.map (fun n => p ++ "/" ++ n)
              (List.map (fun x => x.name) (List.filter (fun x => x.folder) items))
            = List.map (fun f => p ++ "/" ++ f.name) (List.filter (fun x => x.folder) items) := by
          rw [List.map_map]; rfl
        rw [← h1, hnames, List.map_map,
          show expandEntry p cs = List.map (fun c => (p ++ "/" ++ c.name, c.subs)) cs from rfl,
          List.map_map]
        rfl
      rw [hfilter, hmapchild, ← List.map_append]
      have hfuel' : (lvPaths (Q ++ expandEntry p cs)).length ≤ fuel := by
        simp only [List.length_cons] at hfuel; omega
      have hagree' : ∀ e ∈ Q ++ expandEntry p cs, entryAgree env.listing e.1 e.2 = true := by
        intro e he
        rcases List.mem_append.mp he with he | he
        · exact hagree e (List.mem_cons_of_mem _ he)
        · obtain ⟨c, hc, rfl⟩ := List.mem_map.mp he
          exact hchildren c hc
      have hnodup' := (List.nodup_cons.mp hnodup).2
      have hdisjQ : ∀ v ∈ p :: visited, v ∉ lvPaths (Q ++ expandEntry p cs) := by
        intro v hv
        rcases List.mem_cons.mp hv with rfl | hv
        · exact (List.nodup_cons.mp hnodup).1
        · exact fun hlv => hdisj' v hv (List.mem_cons_of_mem _ hlv)
      constructor
      · simp only [processedOf_append, processedOf_map_write, processedOf_cons_cacheWrite,
          processedOf_cons_process, processedOf_cons_write, processedOf_nil, List.nil_append]
        rw [(ih (p :: visited) _ _ fuel hfuel' hagree' hnodup' hdisjQ).1]
        rfl
      · simp only [cacheWritesOf_append, cacheWritesOf_map_write, cacheWritesOf_cons_cacheWrite,
          cacheWritesOf_cons_process, cacheWritesOf_cons_write, cacheWritesOf_nil,
          List.nil_append]
        rw [(ih (p :: visited) _ _ fuel hfuel' hagree' hnodup' hdisjQ).2]
        rfl

/-- C4: on a finite folder tree (a listing that agrees with a tree whose
folder paths are distinct), a full crawl of a top-level subtree visits
every folder exactly once: the inner loop dequeues the paths in
breadth-first order `lvPaths`, persists exactly one cache record per
dequeued path, and the processed sequence is a duplicate-free permutation
of the folder set of the subtree, so its length equals the number of
folders. -/
theorem c4_bfs_visits_every_folder_once (env : Env) (snap : ScanState)
    (hs : snap.isScanning = true) (p : String) (cs : List FolderTree)
    (σ : Store) (t : Nat) (fuel : Nat)
    (hagree : entryAgree env.listing p cs = true)
    (hnodup : (entryPaths p cs).Nodup)
    (hfuel : (entryPaths p cs).length ≤ fuel) :
    processedOf (scanFolderRecursive env snap fuel [p] [] σ t).evs = lvPaths [(p, cs)] ∧
    cacheWritesOf (scanFolderRecursive env snap fuel [p] [] σ t).evs =
      processedOf (scanFolderRecursive env snap fuel [p] [] σ t).evs ∧
    (processedOf (scanFolderRecursive env snap fuel [p] [] σ t).evs).Perm (entryPaths p cs) ∧
    (processedOf (scanFolderRecursive env snap fuel [p] [] σ t).evs).length =
      (entryPaths p cs).length ∧
    (processedOf (scanFolderRecursive env snap fuel [p] [] σ t).evs).Nodup := by
  have hperm : (lvPaths [(p, cs)]).Perm (entryPaths p cs) := by
    have h := lvPaths_perm [(p, cs)]
    simpa [entryPathsOfQueue] using h
  have hlen : (lvPaths [(p, cs)]).length = (entryPaths p cs).length := hperm.length_eq
  have hnodupLv : (lvPaths [(p, cs)]).Nodup := (hperm.nodup_iff).mpr hnodup
  have hmain := scanFolderRecursive_bfs env snap hs [(p, cs)] [] σ t fuel
    (by rw [hlen]; exact hfuel)
    (by intro e he
        rcases List.mem_cons.mp he with h | h
        · subst h; exact hagree
        · cases h)
    hnodupLv
    (by intro v hv; cases hv)
  simp only [List.map_cons, List.map_nil] at hmain
  refine ⟨hmain.1, ?_, ?_, ?_, ?_⟩
  · rw [hmain.1, hmain.2]
  · rw [hmain.1]; exact hperm
  · rw [hmain.1]; exact hlen
  · rw [hmain.1]; exact hnodupLv

/-- The two-level test tree for C4: `R` has children `A` (with child `C`)
and `B`. -/
def c4Tree : List FolderTree := [.mk "A" [.mk "C" []], .mk "B" []]

/-- A listing agreeing with `c4Tree` under root path `R`. -/
def c4Listing : String → Except String (List RawItem) := fun p =>
  if p = "R" then .ok [witFolder "A", witFolder "B", witFile "x.flac"]
  else if p = "R/A" then .ok [witFolder "C"]
  else .ok []

/-- Environment for the C4 witness run. -/
def c4Env : Env := ⟨c4Listing, none, "iso"⟩

/-- Witness for C4 on the concrete tree. -/
theorem c4_bfs_visits_every_folder_once_witness :
    (witS0.isScanning = true ∧ entryAgree c4Env.listing "R" c4Tree = true ∧
      (entryPaths "R" c4Tree).Nodup ∧ (entryPaths "R" c4Tree).length ≤ 10) ∧
    processedOf (scanFolderRecursive c4Env witS0 10 ["R"] [] ⟨some witS0, []⟩ 0).evs =
      lvPaths [("R", c4Tree)] := by
  have hA : entryAgree c4Env.listing "R" c4Tree = true := by
    simp [entryAgree, childrenMatch, subsAgree, c4Env, c4Listing, c4Tree, witFolder,
      witFile, FolderTree.name, FolderTree.subs]
  have hE : entryPaths "R" c4Tree = ["R", "R/A", "R/A/C", "R/B"] := by
    simp [entryPaths, pathsUnder, c4Tree, FolderTree.name, FolderTree.subs]
  have hN : (entryPaths "R" c4Tree).Nodup := by rw [hE]; decide
  have hL : (entryPaths "R" c4Tree).length ≤ 10 := by rw [hE]; decide
  exact ⟨⟨rfl, hA, hN, hL⟩,
    (c4_bfs_visits_every_folder_once c4Env witS0 rfl "R" c4Tree ⟨some witS0, []⟩ 0 10
      hA hN hL).1⟩

/-! ### Claims C5, C6: the paginated listing clients -/

/-- One HTTP page response of the Graph children listing. -/
structure PageResponse where
  status : Nat
  statusText : String
  bodyText : String
  items : List RawItem
  nextLink : Option String

/-- JS `response.ok`: status in the 200-299 range. -/
def respOk (r : PageResponse) : Bool := 200 ≤ r.status && r.status < 300

/-- Observable events of a listing call: page requests (with the bearer
token used and the page URL) and token-refresh attempts. -/
inductive FetchEv where
  | request (token url : String)
  | refreshAttempt (succeeded : Bool)
  deriving DecidableEq, Repr

/-- Result of the music-route `fetchAllItems`: the collected items, the
`return []` taken on a 404, or a thrown error. -/
inductive FetchResult where
  | items (l : List RawItem)
  | notFoundEmpty
  | err (msg : String)
  deriving DecidableEq, Repr

/-- `fetchAllItemsWithPagination(accessToken, path)` of `scan/route.ts`
(lines 329-360), at page granularity: follow `@odata.nextLink` until
exhausted; any non-ok response throws `Graph API error: <status>
<statusText>`; there is no token refresh.  `fuel` bounds the number of
pages followed. -/
def fetchAllItemsWithPagination (pages : String → PageResponse) (accessToken : String) :
    Nat → String → Except String (List RawItem) × List FetchEv
  | 0, _ => (.error "page limit exceeded", [])
  | fuel + 1, url =>
    let r := pages url
    if respOk r then
      match r.nextLink with
      | none => (.ok r.items, [.request accessToken url])
      | some nextUrl =>
        let rest := fetchAllItemsWithPagination pages accessToken fuel nextUrl
        (rest.1.map (fun l => r.items ++ l), .request accessToken url :: rest.2)
    else
      (.error ("Graph API error: " ++ toString r.status ++ " " ++ r.statusText),
        [.request accessToken url])

/-- `fetchAllItems(url)` of `music/route.ts` (lines 92-141), at page
granularity.  On a 401 response, one refresh attempt is made
(`getServerAccessToken()`, modelled by the constant `refreshed`; `none`
models a null result or a thrown refresh error); if a token was obtained
the same page URL is retried once with it and the new token is kept for
subsequent pages.  A 404 makes the whole call return `[]`; any other
non-ok response throws. -/
def fetchAllItems (pages : String → String → PageResponse) (refreshed : Option String) :
    Nat → String → String → FetchResult × List FetchEv
  | 0, _, _ => (.err "page limit exceeded", [])
  | fuel + 1, currentToken, url =>
    let r0 := pages currentToken url
    let step :=
      if r0.status = 401 then
        match refreshed with
        | some t' =>
          (pages t' url, t',
            [FetchEv.request currentToken url, FetchEv.refreshAttempt true,
              FetchEv.request t' url])
        | none =>
          (r0, currentToken,
            [FetchEv.request currentToken url, FetchEv.refreshAttempt false])
      else (r0, currentToken, [FetchEv.request currentToken url])
    match step with
    | (r, token, evs0) =>
      if respOk r then
        match r.nextLink with
        | none => (.items r.items, evs0)
        | some nextUrl =>
          let rest := fetchAllItems pages refreshed fuel token nextUrl
          (match rest.1 with
           | .items l => .items (r.items ++ l)
           | x => x, evs0 ++ rest.2)
      else if r.status = 404 then (.notFoundEmpty, evs0)
      else
        (.err ("Graph API error: " ++ toString r.status ++ " " ++ r.statusText ++ " - " ++
          r.bodyText), evs0)

/-- No refresh attempt occurs in the event list. -/
def noRefreshEvs (evs : List FetchEv) : Bool :=
  evs.all fun e => match e with | .refreshAttempt _ => false | _ => true

/-- Page function returning 404 everywhere. -/
def c5Pages : String → PageResponse := fun _ => ⟨404, "Not Found", "", [], none⟩

/-- Engine environment whose root listing throws the 404 error. -/
def c5EngineEnv : Env := ⟨fun _ => .error "Graph API error: 404 Not Found", none, "iso"⟩

/-- C5 counterexample: a 404 from the scan route's listing is not an empty
sequence but a thrown `Graph API error`, and `startBackgroundScan` on an
absent root records that error on the existing checkpoint (it does not
compute `totalTopLevelFolders = 0`; the checkpoint is otherwise
unchanged). -/
theorem c5_counterexample :
    (fetchAllItemsWithPagination c5Pages "tok" 5 "u").1 =
      .error "Graph API error: 404 Not Found" ∧
    (startBackgroundScan c5EngineEnv 5 ⟨some witS0, []⟩ 0).store.scan =
      some { witS0 with error := some "Graph API error: 404 Not Found" } := by
  constructor
  · rfl
  · rfl

/-- C5 amended: only the music-route `fetchAllItems` treats 404 as an empty
result (returning `[]` for the whole listing); the scan engine's
`fetchAllItemsWithPagination` throws on 404 like any other non-ok status,
so priming an absent root aborts: `startBackgroundScan` merges the thrown
message into the existing checkpoint's `error` field (a no-op when no
checkpoint exists) and `totalTopLevelFolders` is never computed. -/
theorem c5_amended_notfound :
    (∀ (pages : String → String → PageResponse) (refreshed : Option String)
        (token url : String) (fuel : Nat),
      (pages token url).status = 404 →
      (fetchAllItems pages refreshed (fuel + 1) token url).1 = .notFoundEmpty) ∧
    (∀ (pages : String → PageResponse) (accessToken url : String) (fuel : Nat),
      (pages url).status = 404 →
      (fetchAllItemsWithPagination pages accessToken (fuel + 1) url).1 =
        .error ("Graph API error: " ++ toString (pages url).status ++ " " ++
          (pages url).statusText)) ∧
    (∀ (env : Env) (innerFuel : Nat) (σ : Store) (t : Nat) (msg : String),
      env.listing mainLibraryPath = .error msg → env.cancelAt = none →
      (startBackgroundScan env innerFuel σ t).store.scan =
        σ.scan.map (fun s => { s with error := some msg })) := by
  refine ⟨?_, ?_, ?_⟩
  · intro pages refreshed token url fuel h
    simp [fetchAllItems, respOk, h]
  · intro pages accessToken url fuel h
    simp [fetchAllItemsWithPagination, respOk, h]
  · intro env innerFuel σ t msg hl hcancel
    cases hσ : σ.scan with
    | none =>
      simp [startBackgroundScan, hl, updateScanState, getScanState, setScanState,
        cancelStep, hcancel, hσ]
    | some s =>
      simp [startBackgroundScan, hl, updateScanState, getScanState, setScanState,
        cancelStep, hcancel, hσ]

/-- Witness for the amended C5 at concrete inputs. -/
theorem c5_amended_notfound_witness :
    (fetchAllItems (fun _ _ => c5Pages "u") none 5 "tok" "u").1 = .notFoundEmpty ∧
    (fetchAllItemsWithPagination c5Pages "tok" 5 "u").1 =
      .error ("Graph API error: " ++ toString (c5Pages "u").status ++ " " ++
        (c5Pages "u").statusText) ∧
    (startBackgroundScan c5EngineEnv 5 ⟨some witS0, []⟩ 0).store.scan =
      (Store.mk (some witS0) []).scan.map
        (fun s => { s with error := some "Graph API error: 404 Not Found" }) :=
  ⟨c5_amended_notfound.1 (fun _ _ => c5Pages "u") none "tok" "u" 4 rfl,
    c5_amended_notfound.2.1 c5Pages "tok" "u" 4 rfl,
    c5_amended_notfound.2.2 c5EngineEnv 5 ⟨some witS0, []⟩ 0
      "Graph API error: 404 Not Found" rfl rfl⟩

/-- Page function returning 401 everywhere. -/
def c6Pages : String → PageResponse := fun _ => ⟨401, "Unauthorized", "", [], none⟩

/-- C6 counterexample: on a 401 during the scan route's paginated listing,
no token refresh is attempted at all — the call throws immediately — so
the listing client does not attempt exactly one refresh and retry. -/
theorem c6_counterexample :
    (fetchAllItemsWithPagination c6Pages "tok" 5 "u").1 =
      .error "Graph API error: 401 Unauthorized" ∧
    noRefreshEvs (fetchAllItemsWithPagination c6Pages "tok" 5 "u").2 = true := by
  constructor
  · rfl
  · rfl

/-- C6 amended: the music-route `fetchAllItems` attempts exactly one token
refresh per 401 response and retries the same page URL with the new token
(keeping pagination position): if the retried response is again non-ok
(and not 404) the error propagates after that single refresh; if the retry
succeeds the page's items are returned.  The scan route's
`fetchAllItemsWithPagination` never attempts any refresh. -/
theorem c6_amended_unauthorized :
    (∀ (pages : String → String → PageResponse) (t₂ token url : String) (fuel : Nat),
      (pages token url).status = 401 →
      respOk (pages t₂ url) = false →
      (pages t₂ url).status ≠ 404 →
      fetchAllItems pages (some t₂) (fuel + 1) token url =
        (.err ("Graph API error: " ++ toString (pages t₂ url).status ++ " " ++
            (pages t₂ url).statusText ++ " - " ++ (pages t₂ url).bodyText),
          [.request token url, .refreshAttempt true, .request t₂ url])) ∧
    (∀ (pages : String → String → PageResponse) (t₂ token url : String) (fuel : Nat),
      (pages token url).status = 401 →
      respOk (pages t₂ url) = true →
      (pages t₂ url).nextLink = none →
      fetchAllItems pages (some t₂) (fuel + 1) token url =
        (.items (pages t₂ url).items,
          [.request token url, .refreshAttempt true, .request t₂ url])) ∧
    (∀ (pages : String → PageResponse) (accessToken : String) (fuel : Nat) (url : String),
      noRefreshEvs (fetchAllItemsWithPagination pages accessToken fuel url).2 = true) := by
  refine ⟨?_, ?_, ?_⟩
  · intro pages t₂ token url fuel h401 hbad h404
    simp [fetchAllItems, h401, hbad, h404]
  · intro pages t₂ token url fuel h401 hok hnl
    simp [fetchAllItems, h401, hok, hnl]
  · intro pages accessToken fuel
    induction fuel with
    | zero => intro url; rfl
    | succ fuel ih =>
      intro url
      by_cases hok : respOk (pages url)
      · cases hnl : (pages url).nextLink with
        | none => simp [fetchAllItemsWithPagination, hok, hnl, noRefreshEvs]
        | some u =>
          have h2 := ih u
          simp only [fetchAllItemsWithPagination, hok, hnl, if_true, noRefreshEvs,
            List.all_cons] at h2 ⊢
          simpa using h2
      · simp [fetchAllItemsWithPagination, hok, noRefreshEvs]

/-- Pages for the C6 witness: the old token always gets 401, the refreshed
token gets 500. -/
def c6WitPages : String → String → PageResponse := fun tok _ =>
  if tok = "old" then ⟨401, "Unauthorized", "", [], none⟩
  else ⟨500, "Server Error", "boom", [], none⟩

/-- Witness for the amended C6 at concrete inputs. -/
theorem c6_amended_unauthorized_witness :
    fetchAllItems c6WitPages (some "new") 5 "old" "u" =
      (.err ("Graph API error: " ++ toString (c6WitPages "new" "u").status ++ " " ++
          (c6WitPages "new" "u").statusText ++ " - " ++ (c6WitPages "new" "u").bodyText),
        [.request "old" "u", .refreshAttempt true, .request "new" "u"]) ∧
    noRefreshEvs (fetchAllItemsWithPagination c6Pages "tok" 7 "u").2 = true :=
  ⟨c6_amended_unauthorized.1 c6WitPages "new" "old" "u" 4 rfl (by decide) (by decide),
    c6_amended_unauthorized.2.2 c6Pages "tok" 7 "u"⟩

/-! ### Claims C7, C8: scan coordinator and lock primitives -/

/-- Contents of a lock value: `{ pid, ts }`. -/
structure LockInfo where
  pid : Nat
  ts : Nat
  deriving DecidableEq, Repr

/-- The file-backed lock state (`scan.lock`). -/
structure FileLockStore where
  lockFile : Option LockInfo
  deriving DecidableEq, Repr

/-- `acquireScanLock` of the file-backed storage (`storage.ts` lines
300-313): `fs.writeFile` without the exclusive `wx` flag creates **or
overwrites** the lock file and succeeds, so — absent an I/O failure, which
the model omits — the call returns `true` regardless of an existing lock,
and the written lock carries no expiry. -/
def acquireScanLockFile (pid now : Nat) (σ : FileLockStore) : Bool × FileLockStore :=
  (true, { σ with lockFile := some ⟨pid, now⟩ })

/-- `releaseScanLock` (file variant): delete the lock file. -/
def releaseScanLockFile (σ : FileLockStore) : FileLockStore := { σ with lockFile := none }

/-- `hasScanLock` (file variant): mere existence of the file; no staleness
or TTL check — the current time does not even enter. -/
def hasScanLockFile (σ : FileLockStore) : Bool := σ.lockFile.isSome

/-- Redis lock state: the value together with its absolute expiry time in
seconds (`EX` semantics). -/
structure RedisLockStore where
  lock : Option (LockInfo × Nat)
  deriving DecidableEq, Repr

/-- `acquireScanLock` of the Redis storage (`storage.ts` lines 667-680):
`SET key value NX EX (60*30)` — set-if-absent with a 30-minute TTL; an
expired key counts as absent. -/
def acquireScanLockRedis (pid now : Nat) (σ : RedisLockStore) : Bool × RedisLockStore :=
  match σ.lock with
  | some (_, expiresAt) =>
    if now < expiresAt then (false, σ)
    else (true, { σ with lock := some (⟨pid, now⟩, now + 60 * 30) })
  | none => (true, { σ with lock := some (⟨pid, now⟩, now + 60 * 30) })

/-- `hasScanLock` (Redis variant): `EXISTS`, false once expired. -/
def hasScanLockRedis (now : Nat) (σ : RedisLockStore) : Bool :=
  match σ.lock with
  | some (_, expiresAt) => now < expiresAt
  | none => false

/-- C8: evaluation at the failing input.  With a lock already present for
the user, the file-backed `acquireScanLock` still returns `true` and
overwrites the existing lock (its own comment says "Create exclusively;
fails if exists"), and the file lock never self-expires (`hasScanLock`
consults no clock); by contrast the Redis variant refuses acquisition
while a live lock exists, allows it once the 1800-second TTL has passed,
and stamps every acquired lock with expiry `now + 60 * 30`. -/
theorem c8_lock_not_set_if_absent :
    (acquireScanLockFile 2 100 ⟨some ⟨1, 0⟩⟩).1 = true ∧
    hasScanLockFile ⟨some ⟨1, 0⟩⟩ = true ∧
    (acquireScanLockFile 2 100 ⟨some ⟨1, 0⟩⟩).2 = ⟨some ⟨2, 100⟩⟩ ∧
    acquireScanLockRedis 2 100 ⟨some (⟨1, 0⟩, 1800)⟩ = (false, ⟨some (⟨1, 0⟩, 1800)⟩) ∧
    acquireScanLockRedis 2 2000 ⟨some (⟨1, 0⟩, 1800)⟩ = (true, ⟨some (⟨2, 2000⟩, 3800)⟩) ∧
    acquireScanLockRedis 2 100 ⟨none⟩ = (true, ⟨some (⟨2, 100⟩, 1900)⟩) := by
  exact ⟨rfl, rfl, rfl, rfl, rfl, rfl⟩

/-- Store visible to the coordinator: the checkpoint and the lock file. -/
structure CoordStore where
  scan : Option ScanState
  lockFile : Option LockInfo
  deriving DecidableEq, Repr

/-- Responses of `POST {startBackground: true}`. -/
inductive StartStatus where
  | scanningAlready
  | locked
  | resuming
  | startedFresh
  deriving DecidableEq, Repr

/-- Outcome of the coordinator: the returned status and whether a crawl
worker task was started. -/
structure StartOutcome where
  status : StartStatus
  workerStarted : Bool
  deriving DecidableEq, Repr

/-- The `startBackground` gating of `POST` (`scan/route.ts` lines 55-107):
if the persisted checkpoint says a scan is running, answer "already in
progress" and start nothing; else if the lock file exists, answer "locked"
(a plain JSON status) and start nothing; else resume when partial progress
exists and no forced restart was requested, otherwise start fresh — in
both cases the worker is started only if `acquireScanLock()` returns
true. -/
def postStartBackground (σ : CoordStore) (forceRestart : Bool) (pid now : Nat) :
    StartOutcome × CoordStore :=
  match σ.scan with
  | some existing =>
    if existing.isScanning then (⟨.scanningAlready, false⟩, σ)
    else if σ.lockFile.isSome then (⟨.locked, false⟩, σ)
    else if ¬ forceRestart ∧
        existing.scannedTopLevelFolders < existing.totalTopLevelFolders ∧
        existing.topLevelFoldersPaths ≠ [] then
      let resumed := { existing with isScanning := true, lastUpdate := now }
      let acq := acquireScanLockFile pid now ⟨σ.lockFile⟩
      (⟨.resuming, acq.1⟩, ⟨some resumed, acq.2.lockFile⟩)
    else
      let acq := acquireScanLockFile pid now ⟨σ.lockFile⟩
      (⟨.startedFresh, acq.1⟩, ⟨σ.scan, acq.2.lockFile⟩)
  | none =>
    if σ.lockFile.isSome then (⟨.locked, false⟩, σ)
    else
      let acq := acquireScanLockFile pid now ⟨σ.lockFile⟩
      (⟨.startedFresh, acq.1⟩, ⟨σ.scan, acq.2.lockFile⟩)

/-- C7: the coordinator's gating.  (1) A checkpoint with `isScanning=true`
yields the "already running" status and no second worker; (2) otherwise a
held lock yields the "locked" status — a plain result value — and no
worker; (3) only otherwise is a crawl task started (the status is then
resuming or started-fresh, never the two refusal statuses). -/
theorem c7_start_background_gating (σ : CoordStore) (forceRestart : Bool) (pid now : Nat) :
    ((∃ e, σ.scan = some e ∧ e.isScanning = true) →
      postStartBackground σ forceRestart pid now = (⟨.scanningAlready, false⟩, σ)) ∧
    ((∀ e, σ.scan = some e → e.isScanning = false) → σ.lockFile.isSome = true →
      postStartBackground σ forceRestart pid now = (⟨.locked, false⟩, σ)) ∧
    ((∀ e, σ.scan = some e → e.isScanning = false) → σ.lockFile = none →
      (postStartBackground σ forceRestart pid now).1.workerStarted = true ∧
      (postStartBackground σ forceRestart pid now).1.status ≠ .scanningAlready ∧
      (postStartBackground σ forceRestart pid now).1.status ≠ .locked) := by
  refine ⟨?_, ?_, ?_⟩
  · rintro ⟨e, he, hscan⟩
    simp [postStartBackground, he, hscan]
  · intro hno hlock
    cases hσ : σ.scan with
    | none => simp [postStartBackground, hσ, hlock]
    | some e =>
      have := hno e hσ
      simp [postStartBackground, hσ, this, hlock]
  · intro hno hlock
    cases hσ : σ.scan with
    | none =>
      simp [postStartBackground, hσ, hlock, acquireScanLockFile]
    | some e =>
      have := hno e hσ
      simp only [postStartBackground, hσ, this, hlock, Option.isSome_none,
        Bool.false_eq_true, if_false]
      split <;> simp [acquireScanLockFile]

/-- Witness for C7 at three concrete stores. -/
theorem c7_start_background_gating_witness :
    postStartBackground ⟨some witS0, some ⟨9, 0⟩⟩ false 1 0 =
      (⟨.scanningAlready, false⟩, ⟨some witS0, some ⟨9, 0⟩⟩) ∧
    postStartBackground ⟨none, some ⟨9, 0⟩⟩ false 1 0 =
      (⟨.locked, false⟩, ⟨none, some ⟨9, 0⟩⟩) ∧
    (postStartBackground ⟨none, none⟩ false 1 0).1.workerStarted = true :=
  ⟨(c7_start_background_gating ⟨some witS0, some ⟨9, 0⟩⟩ false 1 0).1 ⟨witS0, rfl, rfl⟩,
    (c7_start_background_gating ⟨none, some ⟨9, 0⟩⟩ false 1 0).2.1
      (fun e he => (nomatch he)) rfl,
    ((c7_start_background_gating ⟨none, none⟩ false 1 0).2.2
      (fun e he => (nomatch he)) rfl).1⟩

/-! ### Claim C9: progress notifier deduplication -/

/-- The version the notifier compares: `scanState?.lastUpdate ?? 0`. -/
def notifierVersion (c : Option ScanState) : Nat := (c.map (·.lastUpdate)).getD 0

/-- One `send()` tick of the SSE stream (`scan/stream/route.ts` lines
44-53): emit a data frame carrying the polled checkpoint only when its
version is nonzero and differs from the last pushed version; returns the
emitted frame (if any) and the updated `lastVersion`. -/
def sendTick (c : Option ScanState) (lastVersion : Nat) :
    Option (Option ScanState) × Nat :=
  let version := notifierVersion c
  if version ≠ 0 ∧ version ≠ lastVersion then (some c, version)
  else (none, lastVersion)

/-- The data frames emitted over a sequence of poll results. -/
def notifierRun : List (Option ScanState) → Nat → List (Option ScanState)
  | [], _ => []
  | c :: cs, lastVersion =>
    match sendTick c lastVersion with
    | (some f, lv) => f :: notifierRun cs lv
    | (none, lv) => notifierRun cs lv

theorem notifierRun_spec :
    ∀ (polls : List (Option ScanState)) (lv : Nat),
      (∀ f, (notifierRun polls lv).head? = some f →
        notifierVersion f ≠ lv ∧ notifierVersion f ≠ 0) ∧
      List.Chain' (fun a b => notifierVersion a ≠ notifierVersion b)
        (notifierRun polls lv) := by
  intro polls
  induction polls with
  | nil => intro lv; exact ⟨fun f hf => (nomatch hf), List.chain'_nil⟩
  | cons c cs ih =>
    intro lv
    by_cases hc : notifierVersion c ≠ 0 ∧ notifierVersion c ≠ lv
    · have hrun : notifierRun (c :: cs) lv = c :: notifierRun cs (notifierVersion c) := by
        simp [notifierRun, sendTick, hc.1, hc.2]
      rw [hrun]
      constructor
      · intro f hf
        rw [List.head?_cons, Option.some_inj] at hf
        subst hf
        exact ⟨hc.2, hc.1⟩
      · rw [List.chain'_cons']
        exact ⟨fun y hy => Ne.symm ((ih (notifierVersion c)).1 y hy).1,
          (ih (notifierVersion c)).2⟩
    · have hrun : notifierRun (c :: cs) lv = notifierRun cs lv := by
        simp only [notifierRun, sendTick]
        rw [if_neg hc]
      rw [hrun]
      exact ih lv

/-- C9: a data frame is pushed only when the checkpoint's `lastUpdate`
differs from the last pushed version: over any poll sequence (from the
initial `lastVersion = 0`), consecutive pushed frames always carry
different versions; and whenever two consecutive polls see the same
`lastUpdate`, the second tick emits no data frame at all. -/
theorem c9_notifier_dedup :
    (∀ polls : List (Option ScanState),
      List.Chain' (fun a b => notifierVersion a ≠ notifierVersion b)
        (notifierRun polls 0)) ∧
    (∀ (c c' : Option ScanState) (lv : Nat),
      notifierVersion c' = notifierVersion c →
      (sendTick c' (sendTick c lv).2).1 = none) := by
  constructor
  · intro polls
    exact (notifierRun_spec polls 0).2
  · intro c c' lv he
    unfold sendTick
    by_cases h1 : notifierVersion c ≠ 0 ∧ notifierVersion c ≠ lv
    · rw [if_pos h1]
      simp only [he]
      rw [if_neg]
      simp
    · rw [if_neg h1]
      simp only [he]
      rw [if_neg]
      intro h2
      rcases not_and_or.mp h1 with h | h
      · exact h h2.1
      · exact h2.2 (by push_neg at h; exact h)

/-- Witness for C9: two consecutive polls with the same checkpoint. -/
theorem c9_notifier_dedup_witness :
    List.Chain' (fun a b => notifierVersion a ≠ notifierVersion b)
      (notifierRun [some witS0, some witS0] 0) ∧
    (sendTick (some witS0) (sendTick (some witS0) 7).2).1 = none :=
  ⟨c9_notifier_dedup.1 [some witS0, some witS0],
    c9_notifier_dedup.2 (some witS0) (some witS0) 7 rfl⟩

/-! ### Claim C10: the media extension filter -/

/-- Modelled from the spec: "the allowlist is fixed: {mp3, wav, flac, m4a,
aac, ogg} (case-insensitive suffix match)" — a file's name has one of the
allowed trailing extensions exactly when its lowercased name ends with a
dot followed by an allowlist entry. -/
def specTrailingExtMedia (name : String) : Bool :=
  audioExtensions.any fun e => ("." ++ e).data.isSuffixOf (jsToLower name).data

/-- C10 counterexample: a file whose dotless name is itself an allowlist
word — `"mp3"` — is classified as media by the source's filter
(`"mp3".split(".").pop()` is `"mp3"`), although it has no trailing
extension at all (the spec's case-insensitive suffix rule rejects it). -/
theorem c10_counterexample :
    isAudioName "mp3" = true ∧ specTrailingExtMedia "mp3" = false := by
  constructor
  · decide
  · decide

/-- C10 amended: the classifier tests the last `"."`-separated component of
the name, lowercased, against {mp3, wav, flac, m4a, aac, ogg}; on the
example files a.MP3, b.txt, c.Flac, d.exe it classifies exactly a.MP3 and
c.Flac as media, but it also accepts a dotless file named `mp3`. -/
theorem c10_amended_extension_filter :
    (([witFile "a.MP3", witFile "b.txt", witFile "c.Flac", witFile "d.exe"].filter
        (fun i => isAudioName i.name)).map (fun i => i.name)) = ["a.MP3", "c.Flac"] ∧
    isAudioName "mp3" = true := by
  constructor
  · decide
  · decide

end OMP
